import Mathlib

/-!
Shallow embedding of `src/wallet_service.py` (class `WalletService`) and
verification of its specification.

Modelling choices:
* Python dicts `self.wallets` and `self.idempotency_map` are modelled as
  computable partial maps `String → Option _` (the code never iterates them,
  so insertion order is unobservable).
* `time.time()` is modelled by a monotone counter `clock` carried in the
  service state; each call to `time.time()` returns the current counter value
  and advances it.
* The `float` argument `amount_usd` of `topup` is modelled as a rational
  number (every finite Python float denotes a rational), and Python `int()`
  on it is truncation toward zero (`pyInt`).
* The global `threading.Lock` makes the whole body of `topup`, `game_reward`
  and `get_wallet` one critical section, so each call is a single atomic
  state transition; concurrent executions are exactly the interleavings of
  these atomic transitions, i.e. all orders of the calls.
-/

namespace WalletSpec

/-- Python `int(x)` on a (rational-valued) number: truncation toward zero. -/
def pyInt (q : ℚ) : ℤ := if 0 ≤ q then ⌊q⌋ else ⌈q⌉

/-- An entry of a wallet's `operations` list.  `topup` stores
`{'type','amount','key','time'}`; `game_reward` additionally stores
`'reward_id'`, modelled by the `Option` field. -/
structure Operation where
  type : String
  amount : ℤ
  reward_id : Option String
  key : String
  time : ℕ
deriving DecidableEq, Repr

/-- A value of `self.idempotency_map`:
`{'status': 'completed', 'result': msg, 'timestamp': t}`. -/
structure IdemRecord where
  status : String
  result : String
  timestamp : ℕ
deriving DecidableEq, Repr

/-- A value of `self.wallets`: `{'balance': int, 'operations': list}`. -/
structure Wallet where
  balance : ℤ
  operations : List Operation
deriving DecidableEq, Repr

/-- The mutable state of one `WalletService` instance. -/
structure WalletService where
  wallets : String → Option Wallet
  idempotency_map : String → Option IdemRecord
  clock : ℕ

/-- The state right after `WalletService.__init__`. -/
def initService : WalletService :=
  { wallets := fun _ => none, idempotency_map := fun _ => none, clock := 0 }

/-- `_get_or_create_wallet`: the wallet for `user_id`, or a fresh zero wallet. -/
def getOrCreateWallet (s : WalletService) (user_id : String) : Wallet :=
  (s.wallets user_id).getD { balance := 0, operations := [] }

/-- The f-string built by `topup` for the idempotency record and return value. -/
def topupMessage (amount_coins new_balance : ℤ) : String :=
  "Topup successful. Added " ++ toString amount_coins ++
    " coins. New balance: " ++ toString new_balance

/-- The f-string built by `game_reward`. -/
def rewardMessage (amount_coins new_balance : ℤ) : String :=
  "Reward successful. Added " ++ toString amount_coins ++
    " coins. New balance: " ++ toString new_balance

/-- `topup(user_id, amount_usd, idempotency_key)`: returns the result string
and the post-state.  Mirrors `src/wallet_service.py` lines 34-76. -/
def topup (s : WalletService) (user_id : String) (amount_usd : ℚ)
    (idempotency_key : String) : String × WalletService :=
  let amount_coins := pyInt amount_usd
  match s.idempotency_map idempotency_key with
  | some r => (r.result, s)
  | none =>
    let wallet := getOrCreateWallet s user_id
    let new_balance := wallet.balance + amount_coins
    let op : Operation :=
      { type := "topup", amount := amount_coins, reward_id := none,
        key := idempotency_key, time := s.clock }
    let wallet2 : Wallet :=
      { balance := new_balance, operations := wallet.operations ++ [op] }
    let result_message := topupMessage amount_coins new_balance
    let record : IdemRecord :=
      { status := "completed", result := result_message, timestamp := s.clock + 1 }
    (result_message,
      { wallets := fun u => if u = user_id then some wallet2 else s.wallets u,
        idempotency_map := fun k =>
          if k = idempotency_key then some record else s.idempotency_map k,
        clock := s.clock + 2 })

/-- `game_reward(user_id, amount_coins, reward_id, idempotency_key)`:
mirrors `src/wallet_service.py` lines 78-115. -/
def game_reward (s : WalletService) (user_id : String) (amount_coins : ℤ)
    (reward_id : String) (idempotency_key : String) : String × WalletService :=
  match s.idempotency_map idempotency_key with
  | some r => (r.result, s)
  | none =>
    let wallet := getOrCreateWallet s user_id
    let new_balance := wallet.balance + amount_coins
    let op : Operation :=
      { type := "reward", amount := amount_coins, reward_id := some reward_id,
        key := idempotency_key, time := s.clock }
    let wallet2 : Wallet :=
      { balance := new_balance, operations := wallet.operations ++ [op] }
    let result_message := rewardMessage amount_coins new_balance
    let record : IdemRecord :=
      { status := "completed", result := result_message, timestamp := s.clock + 1 }
    (result_message,
      { wallets := fun u => if u = user_id then some wallet2 else s.wallets u,
        idempotency_map := fun k =>
          if k = idempotency_key then some record else s.idempotency_map k,
        clock := s.clock + 2 })

/-- The dict returned by `get_wallet`. -/
structure WalletView where
  userId : String
  balance : ℤ
  recent_operations : List Operation
deriving DecidableEq, Repr

/-- The comparison used by
`sorted(wallet['operations'], key=lambda x: x['time'], reverse=True)`:
Python's sort is stable, and `reverse=True` orders by descending key while
keeping tied elements in their original order, which is exactly a stable
merge sort with this relation. -/
def byTimeDesc (a b : Operation) : Bool := b.time ≤ a.time

/-- `get_wallet(user_id)`: mirrors `src/wallet_service.py` lines 118-135.
Read-only: it returns a view and does not change the state. -/
def get_wallet (s : WalletService) (user_id : String) : WalletView :=
  match s.wallets user_id with
  | none => { userId := user_id, balance := 0, recent_operations := [] }
  | some w =>
    { userId := user_id, balance := w.balance,
      recent_operations := (w.operations.mergeSort byTimeDesc).take 5 }

/-- One external call to the service (the demo/driver is an external caller). -/
inductive Call where
  | topup (user_id : String) (amount_usd : ℚ) (idempotency_key : String)
  | game_reward (user_id : String) (amount_coins : ℤ) (reward_id : String)
      (idempotency_key : String)
  | get_wallet (user_id : String)

/-- The state transition of one call (each call body runs under the single
global lock, hence is one atomic step). -/
def step (s : WalletService) : Call → WalletService
  | .topup u a k => (topup s u a k).2
  | .game_reward u a r k => (game_reward s u a r k).2
  | .get_wallet _ => s

/-- Run a sequence of calls from a state. -/
def run (s : WalletService) (cs : List Call) : WalletService := cs.foldl step s

/-- Balance of `user_id` as observable through the state (0 if absent). -/
def balanceOf (s : WalletService) (user_id : String) : ℤ :=
  (getOrCreateWallet s user_id).balance

/-- Operation history of `user_id` (empty if absent). -/
def opsOf (s : WalletService) (user_id : String) : List Operation :=
  (getOrCreateWallet s user_id).operations

/-- Whether a call is a credit (mutating) call on account `u`. -/
def Call.isCreditOn (u : String) : Call → Bool
  | .topup u2 _ _ => u2 == u
  | .game_reward u2 _ _ _ => u2 == u
  | .get_wallet _ => false

/-- The idempotency token a call presents (`none` for reads). -/
def Call.token : Call → Option String
  | .topup _ _ k => some k
  | .game_reward _ _ _ k => some k
  | .get_wallet _ => none

/-- The integer coin delta a credit call applies when it is fresh
(for `topup` this is the truncated `amount_usd`). -/
def Call.delta : Call → ℤ
  | .topup _ a _ => pyInt a
  | .game_reward _ a _ _ => a
  | .get_wallet _ => 0

/-! ### Helper lemmas -/

theorem topup_replay (s : WalletService) (u : String) (q : ℚ) (k : String)
    (r : IdemRecord) (h : s.idempotency_map k = some r) :
    topup s u q k = (r.result, s) := by
  simp [topup, h]

theorem game_reward_replay (s : WalletService) (u : String) (a : ℤ)
    (rid k : String) (r : IdemRecord) (h : s.idempotency_map k = some r) :
    game_reward s u a rid k = (r.result, s) := by
  simp [game_reward, h]

theorem topup_fresh_map_self (s : WalletService) (u : String) (q : ℚ)
    (k : String) (h : s.idempotency_map k = none) :
    (topup s u q k).2.idempotency_map k =
      some { status := "completed", result := (topup s u q k).1,
             timestamp := s.clock + 1 } := by
  simp [topup, h]

theorem game_reward_fresh_map_self (s : WalletService) (u : String) (a : ℤ)
    (rid k : String) (h : s.idempotency_map k = none) :
    (game_reward s u a rid k).2.idempotency_map k =
      some { status := "completed", result := (game_reward s u a rid k).1,
             timestamp := s.clock + 1 } := by
  simp [game_reward, h]

/-! ### C1: idempotent replay -/

/-- C1: if the token is already present in the idempotency table, a credit
call (`topup` or `game_reward`) returns exactly the recorded outcome string
and leaves the whole state (balances, histories, idempotency table)
unchanged. -/
theorem idempotent_replay (s : WalletService) (u rid tk : String) (q : ℚ)
    (a : ℤ) (r : IdemRecord) (h : s.idempotency_map tk = some r) :
    topup s u q tk = (r.result, s) ∧ game_reward s u a rid tk = (r.result, s) := by
  exact ⟨topup_replay s u q tk r h, game_reward_replay s u a rid tk r h⟩

/-- C1 witness: after a first `topup` with token `t`, replaying it is
observed at a concrete state. -/
theorem idempotent_replay_witness :
    ((topup initService "u" 5 "t").2.idempotency_map "t" =
        some { status := "completed", result := topupMessage 5 5, timestamp := 1 })
    ∧ (topup (topup initService "u" 5 "t").2 "u" 5 "t" =
          (topupMessage 5 5, (topup initService "u" 5 "t").2)
        ∧ game_reward (topup initService "u" 5 "t").2 "u" 9 "rid" "t" =
          (topupMessage 5 5, (topup initService "u" 5 "t").2)) :=
  ⟨by rfl,
   idempotent_replay (topup initService "u" 5 "t").2 "u" "rid" "t" 5 9
     { status := "completed", result := topupMessage 5 5, timestamp := 1 } (by rfl)⟩

/-! ### C4: first-application postcondition -/

/-- C4: a credit call whose token is not yet in the idempotency table
gets-or-creates the account, adds the amount to the balance, appends exactly
one operation record carrying kind, amount, token, metadata and timestamp,
records the returned outcome in the idempotency table under the token, and
returns that outcome (the status message containing the new balance). -/
theorem first_application_postcondition (s : WalletService) (u rid tk : String)
    (q : ℚ) (a : ℤ) (h : s.idempotency_map tk = none) :
    ((topup s u q tk).2.wallets u =
        some { balance := balanceOf s u + pyInt q,
               operations := opsOf s u ++
                 [{ type := "topup", amount := pyInt q, reward_id := none,
                    key := tk, time := s.clock }] }
      ∧ (topup s u q tk).2.idempotency_map tk =
          some { status := "completed", result := (topup s u q tk).1,
                 timestamp := s.clock + 1 }
      ∧ (topup s u q tk).1 = topupMessage (pyInt q) (balanceOf s u + pyInt q))
    ∧
    ((game_reward s u a rid tk).2.wallets u =
        some { balance := balanceOf s u + a,
               operations := opsOf s u ++
                 [{ type := "reward", amount := a, reward_id := some rid,
                    key := tk, time := s.clock }] }
      ∧ (game_reward s u a rid tk).2.idempotency_map tk =
          some { status := "completed", result := (game_reward s u a rid tk).1,
                 timestamp := s.clock + 1 }
      ∧ (game_reward s u a rid tk).1 = rewardMessage a (balanceOf s u + a)) := by
  refine ⟨⟨?_, ?_, ?_⟩, ⟨?_, ?_, ?_⟩⟩ <;>
    simp [topup, game_reward, h, balanceOf, opsOf]

/-- C4 witness at the initial state. -/
theorem first_application_postcondition_witness :
    (initService.idempotency_map "t" = none)
    ∧ (((topup initService "u" 7 "t").2.wallets "u" =
        some { balance := balanceOf initService "u" + pyInt 7,
               operations := opsOf initService "u" ++
                 [{ type := "topup", amount := pyInt 7, reward_id := none,
                    key := "t", time := initService.clock }] }
      ∧ (topup initService "u" 7 "t").2.idempotency_map "t" =
          some { status := "completed", result := (topup initService "u" 7 "t").1,
                 timestamp := initService.clock + 1 }
      ∧ (topup initService "u" 7 "t").1 =
          topupMessage (pyInt 7) (balanceOf initService "u" + pyInt 7))
    ∧
    ((game_reward initService "u" 3 "r" "t").2.wallets "u" =
        some { balance := balanceOf initService "u" + 3,
               operations := opsOf initService "u" ++
                 [{ type := "reward", amount := 3, reward_id := some "r",
                    key := "t", time := initService.clock }] }
      ∧ (game_reward initService "u" 3 "r" "t").2.idempotency_map "t" =
          some { status := "completed", result := (game_reward initService "u" 3 "r" "t").1,
                 timestamp := initService.clock + 1 }
      ∧ (game_reward initService "u" 3 "r" "t").1 =
          rewardMessage 3 (balanceOf initService "u" + 3))) :=
  ⟨rfl, first_application_postcondition initService "u" "r" "t" 7 3 rfl⟩

/-! ### C9: one idempotency table shared across credit kinds and accounts -/

/-- C9: the idempotency table is shared by both credit kinds and all
accounts: a token first applied by `topup` for one account makes a later
`game_reward` with that token (for any account, amount and reward id) take
the replay path, returning the `topup`'s recorded outcome and leaving the
state unchanged; and symmetrically with the two kinds swapped. -/
theorem shared_idempotency_table (s : WalletService) (uA uB ridA ridB : String)
    (q q2 : ℚ) (a a2 : ℤ) (tk : String) (h : s.idempotency_map tk = none) :
    game_reward (topup s uA q tk).2 uB a2 ridB tk
        = ((topup s uA q tk).1, (topup s uA q tk).2)
    ∧ topup (game_reward s uA a ridA tk).2 uB q2 tk
        = ((game_reward s uA a ridA tk).1, (game_reward s uA a ridA tk).2) := by
  constructor
  · exact game_reward_replay _ uB a2 ridB tk _ (topup_fresh_map_self s uA q tk h)
  · exact topup_replay _ uB q2 tk _ (game_reward_fresh_map_self s uA a ridA tk h)

/-- C9 witness: token `"t"` consumed by a `topup` for account `"A"` blocks a
`game_reward` for account `"B"`, and vice versa, at the initial state. -/
theorem shared_idempotency_table_witness :
    (initService.idempotency_map "t" = none)
    ∧ (game_reward (topup initService "A" 5 "t").2 "B" 9 "rB" "t"
        = ((topup initService "A" 5 "t").1, (topup initService "A" 5 "t").2)
      ∧ topup (game_reward initService "A" 4 "rA" "t").2 "B" 6 "t"
        = ((game_reward initService "A" 4 "rA" "t").1,
           (game_reward initService "A" 4 "rA" "t").2)) :=
  ⟨rfl, shared_idempotency_table initService "A" "B" "rA" "rB" 5 6 4 9 "t" rfl⟩

/-! ### C3: input validation -/

/-- C3 counterexample: the code performs no input validation.  `topup` with
amount `0` and a fresh token records the token, and `game_reward` with the
negative amount `-1` and the empty token is applied as well, driving the
balance to `-1` — no call fails and the state is mutated, contradicting the
claim that such calls fail with `InvalidArgument` and leave the state
unchanged. -/
theorem invalid_input_counterexample :
    (topup initService "u" 0 "t").2.idempotency_map "t" ≠ none
    ∧ (game_reward initService "u" (-1) "r" "").2.idempotency_map "" ≠ none
    ∧ balanceOf (game_reward initService "u" (-1) "r" "").2 "u" = -1 := by
  refine ⟨?_, ?_, ?_⟩ <;>
    simp [topup, game_reward, initService, balanceOf, getOrCreateWallet, pyInt]

/-- C3 amended: a credit call with a non-positive amount or an empty token
is not rejected: with a fresh token (the empty token included) it follows the
normal first-application path — the (possibly non-positive) amount is added
to the balance, one operation is appended, and the token is recorded. -/
theorem invalid_input_applied (s : WalletService) (u rid tk : String)
    (q : ℚ) (a : ℤ) (hq : q ≤ 0) (ha : a ≤ 0)
    (h : s.idempotency_map tk = none) :
    balanceOf (topup s u q tk).2 u = balanceOf s u + pyInt q
    ∧ (opsOf (topup s u q tk).2 u).length = (opsOf s u).length + 1
    ∧ (topup s u q tk).2.idempotency_map tk ≠ none
    ∧ balanceOf (game_reward s u a rid tk).2 u = balanceOf s u + a
    ∧ (opsOf (game_reward s u a rid tk).2 u).length = (opsOf s u).length + 1
    ∧ (game_reward s u a rid tk).2.idempotency_map tk ≠ none := by
  refine ⟨?_, ?_, ?_, ?_, ?_, ?_⟩ <;>
    simp [topup, game_reward, h, balanceOf, opsOf, getOrCreateWallet]

/-- C3 witness: amount `0` for `topup`, amount `-1` for `game_reward`, and
the empty token, all accepted at the initial state. -/
theorem invalid_input_applied_witness :
    ((0 : ℚ) ≤ 0 ∧ (-1 : ℤ) ≤ 0 ∧ initService.idempotency_map "" = none)
    ∧ (balanceOf (topup initService "u" 0 "").2 "u" = balanceOf initService "u" + pyInt 0
      ∧ (opsOf (topup initService "u" 0 "").2 "u").length =
          (opsOf initService "u").length + 1
      ∧ (topup initService "u" 0 "").2.idempotency_map "" ≠ none
      ∧ balanceOf (game_reward initService "u" (-1) "r" "").2 "u" =
          balanceOf initService "u" + (-1)
      ∧ (opsOf (game_reward initService "u" (-1) "r" "").2 "u").length =
          (opsOf initService "u").length + 1
      ∧ (game_reward initService "u" (-1) "r" "").2.idempotency_map "" ≠ none) :=
  ⟨⟨by decide, by decide, rfl⟩,
   invalid_input_applied initService "u" "r" "" 0 (-1) (by decide) (by decide) rfl⟩

/-! ### C10: truncation of the topup amount -/

/-- Python `int()` truncates toward zero, so any rational of absolute value
below one becomes `0`. -/
theorem pyInt_eq_zero_of_abs_lt_one (q : ℚ) (h : |q| < 1) : pyInt q = 0 := by
  have hlt := abs_lt.mp h
  unfold pyInt
  rcases le_or_lt 0 q with h0 | h0
  · rw [if_pos h0, Int.floor_eq_zero_iff]
    exact Set.mem_Ico.mpr ⟨h0, hlt.2⟩
  · rw [if_neg (not_le.mpr h0), Int.ceil_eq_zero_iff]
    exact Set.mem_Ioc.mpr ⟨hlt.1, le_of_lt h0⟩

/-- C10: with a fresh token, `topup` credits exactly `int(amount_usd)` coins
(truncation toward zero), and when `|amount_usd| < 1` it credits `0` coins
while still appending an amount-`0` operation and consuming the token. -/
theorem topup_truncation (s : WalletService) (u tk : String) (q : ℚ)
    (h : s.idempotency_map tk = none) :
    balanceOf (topup s u q tk).2 u = balanceOf s u + pyInt q
    ∧ (|q| < 1 →
        pyInt q = 0
        ∧ opsOf (topup s u q tk).2 u = opsOf s u ++
            [{ type := "topup", amount := 0, reward_id := none, key := tk,
               time := s.clock }]
        ∧ (topup s u q tk).2.idempotency_map tk ≠ none) := by
  constructor
  · simp [topup, h, balanceOf, getOrCreateWallet]
  · intro hq
    have h0 := pyInt_eq_zero_of_abs_lt_one q hq
    refine ⟨h0, ?_, ?_⟩ <;> simp [topup, h, opsOf, getOrCreateWallet, h0]

/-- C10 witness: `topup` with `amount_usd = 0` (absolute value below one)
on the initial state. -/
theorem topup_truncation_witness :
    (initService.idempotency_map "t" = none)
    ∧ (balanceOf (topup initService "u" 0 "t").2 "u" =
          balanceOf initService "u" + pyInt 0
      ∧ (|(0 : ℚ)| < 1 →
          pyInt 0 = 0
          ∧ opsOf (topup initService "u" 0 "t").2 "u" = opsOf initService "u" ++
              [{ type := "topup", amount := 0, reward_id := none, key := "t",
                 time := initService.clock }]
          ∧ (topup initService "u" 0 "t").2.idempotency_map "t" ≠ none)) :=
  ⟨rfl, topup_truncation initService "u" "t" 0 rfl⟩


/-! ### Step lemmas for sequences of calls -/

theorem mem_pair_elim {α : Type} {c a b : α} (h : c ∈ [a, b]) : c = a ∨ c = b := by
  simpa using h

/-- A credit call always carries a token. -/
theorem Call.token_of_credit (c : Call) (u : String)
    (hc : c.isCreditOn u = true) : ∃ t, c.token = some t := by
  cases c with
  | topup u2 a k => exact ⟨k, rfl⟩
  | game_reward u2 a r k => exact ⟨k, rfl⟩
  | get_wallet u2 => simp [Call.isCreditOn] at hc

/-- A fresh credit call on `u` adds its coin delta to `u`'s balance. -/
theorem balanceOf_step_credit (s : WalletService) (u t : String) (c : Call)
    (hc : c.isCreditOn u = true) (ht : c.token = some t)
    (hf : s.idempotency_map t = none) :
    balanceOf (step s c) u = balanceOf s u + c.delta := by
  cases c with
  | topup u2 a k =>
    simp only [Call.isCreditOn, beq_iff_eq] at hc
    subst hc
    obtain rfl : k = t := by injection ht
    simp [step, topup, hf, balanceOf, getOrCreateWallet, Call.delta]
  | game_reward u2 a r k =>
    simp only [Call.isCreditOn, beq_iff_eq] at hc
    subst hc
    obtain rfl : k = t := by injection ht
    simp [step, game_reward, hf, balanceOf, getOrCreateWallet, Call.delta]
  | get_wallet u2 => simp [Call.isCreditOn] at hc

/-- A call leaves every idempotency entry other than its own token alone. -/
theorem step_map_other (s : WalletService) (c : Call) (t2 : String)
    (h : c.token ≠ some t2) :
    (step s c).idempotency_map t2 = s.idempotency_map t2 := by
  cases c with
  | topup u a k =>
    have hk : ¬ t2 = k := fun he => h (by simp [Call.token, he])
    cases hm : s.idempotency_map k with
    | some r => simp [step, topup, hm]
    | none => simp [step, topup, hm, hk]
  | game_reward u a r k =>
    have hk : ¬ t2 = k := fun he => h (by simp [Call.token, he])
    cases hm : s.idempotency_map k with
    | some r => simp [step, game_reward, hm]
    | none => simp [step, game_reward, hm, hk]
  | get_wallet u => rfl

/-- A call that is not a credit on `u` leaves `u`'s wallet entry alone. -/
theorem step_wallets_other (s : WalletService) (c : Call) (u : String)
    (h : c.isCreditOn u = false) :
    (step s c).wallets u = s.wallets u := by
  cases c with
  | topup u2 a k =>
    simp only [Call.isCreditOn, beq_eq_false_iff_ne, ne_eq] at h
    have hu : ¬ u = u2 := fun he => h he.symm
    cases hm : s.idempotency_map k with
    | some r => simp [step, topup, hm]
    | none => simp [step, topup, hm, hu]
  | game_reward u2 a r k =>
    simp only [Call.isCreditOn, beq_eq_false_iff_ne, ne_eq] at h
    have hu : ¬ u = u2 := fun he => h he.symm
    cases hm : s.idempotency_map k with
    | some r => simp [step, game_reward, hm]
    | none => simp [step, game_reward, hm, hu]
  | get_wallet u2 => rfl

/-- Main accounting lemma: running any sequence of credit calls on account
`u`, whose tokens are pairwise distinct and all fresh, adds the sum of their
coin deltas to `u`'s balance. -/
theorem run_credits_balance (u : String) :
    ∀ (cs : List Call) (s : WalletService),
      (∀ c ∈ cs, c.isCreditOn u = true) →
      (∀ c ∈ cs, ∀ t, c.token = some t → s.idempotency_map t = none) →
      cs.Pairwise (fun c d => c.token ≠ d.token) →
      balanceOf (run s cs) u = balanceOf s u + (cs.map Call.delta).sum
  | [], s, _, _, _ => by simp [run]
  | c :: cs, s, hcred, hfresh, hdist => by
    have hc : c.isCreditOn u = true := hcred c (by simp)
    obtain ⟨t, ht⟩ := Call.token_of_credit c u hc
    have hf : s.idempotency_map t = none := hfresh c (by simp) t ht
    have hpair := List.pairwise_cons.mp hdist
    have hrun : run s (c :: cs) = run (step s c) cs := rfl
    have hcred2 : ∀ d ∈ cs, d.isCreditOn u = true :=
      fun d hd => hcred d (by simp [hd])
    have hfresh2 : ∀ d ∈ cs, ∀ t2, d.token = some t2 →
        (step s c).idempotency_map t2 = none := by
      intro d hd t2 ht2
      have hne : c.token ≠ some t2 := by
        rw [ht]
        intro he
        exact hpair.1 d hd (by rw [ht, ht2, ← he])
      rw [step_map_other s c t2 hne]
      exact hfresh d (by simp [hd]) t2 ht2
    have hrec := run_credits_balance u cs (step s c) hcred2 hfresh2 hpair.2
    rw [hrun, hrec, balanceOf_step_credit s u t c hc ht hf]
    simp [add_assoc]

/-! ### C2: no lost updates -/

/-- C2: each call body of `topup`/`game_reward` runs under the service's
single lock, so it is one atomic transition and every concurrent
interleaving of `N ≥ 2` credit calls is some sequential order of complete
calls.  For every such order `cs` of credit calls on the same account, with
pairwise distinct tokens all absent from the idempotency table, the final
balance is the initial balance plus the sum of all the coin deltas — no
credit is lost or double-counted. -/
theorem no_lost_updates (s : WalletService) (u : String) (cs : List Call)
    (hN : 2 ≤ cs.length)
    (hcred : ∀ c ∈ cs, c.isCreditOn u = true)
    (hfresh : ∀ c ∈ cs, ∀ t, c.token = some t → s.idempotency_map t = none)
    (hdist : cs.Pairwise (fun c d => c.token ≠ d.token)) :
    balanceOf (run s cs) u = balanceOf s u + (cs.map Call.delta).sum :=
  run_credits_balance u cs s hcred hfresh hdist

/-- C2 witness: a `topup` of 25 and a `game_reward` of 50 with distinct
fresh tokens on the initial state. -/
theorem no_lost_updates_witness :
    (2 ≤ ([Call.topup "u" 25 "t1", Call.game_reward "u" 50 "r" "t2"] :
        List Call).length
      ∧ (∀ c ∈ [Call.topup "u" 25 "t1", Call.game_reward "u" 50 "r" "t2"],
          c.isCreditOn "u" = true)
      ∧ (∀ c ∈ [Call.topup "u" 25 "t1", Call.game_reward "u" 50 "r" "t2"],
          ∀ t, c.token = some t → initService.idempotency_map t = none)
      ∧ ([Call.topup "u" 25 "t1", Call.game_reward "u" 50 "r" "t2"] :
          List Call).Pairwise (fun c d => c.token ≠ d.token))
    ∧ balanceOf
        (run initService
          [Call.topup "u" 25 "t1", Call.game_reward "u" 50 "r" "t2"]) "u"
      = balanceOf initService "u" +
          (([Call.topup "u" 25 "t1", Call.game_reward "u" 50 "r" "t2"] :
            List Call).map Call.delta).sum :=
  ⟨⟨by decide, by decide, fun c _ t _ => rfl, by decide⟩,
   no_lost_updates initService "u"
     [Call.topup "u" 25 "t1", Call.game_reward "u" 50 "r" "t2"]
     (by decide) (by decide) (fun c _ t _ => rfl) (by decide)⟩

/-! ### C6: cross-token order independence -/

/-- C6: two credit calls on the same account carrying two distinct tokens
not previously seen both apply — in either order the final balance is the
initial balance plus the sum of the two coin deltas (the calls may otherwise
be identical). -/
theorem cross_token_independence (s : WalletService) (u t1 t2 : String)
    (c1 c2 : Call)
    (h1 : c1.isCreditOn u = true) (h2 : c2.isCreditOn u = true)
    (ht1 : c1.token = some t1) (ht2 : c2.token = some t2) (hne : t1 ≠ t2)
    (hf1 : s.idempotency_map t1 = none)
    (hf2 : s.idempotency_map t2 = none) :
    balanceOf (run s [c1, c2]) u = balanceOf s u + (c1.delta + c2.delta)
    ∧ balanceOf (run s [c2, c1]) u = balanceOf s u + (c1.delta + c2.delta) := by
  have hfr : ∀ c, c = c1 ∨ c = c2 → ∀ t, c.token = some t →
      s.idempotency_map t = none := by
    rintro c (rfl | rfl) t ht
    · rw [ht1] at ht
      injection ht with he
      exact he ▸ hf1
    · rw [ht2] at ht
      injection ht with he
      exact he ▸ hf2
  have htokne : c1.token ≠ c2.token := by
    rw [ht1, ht2]
    intro he
    injection he with he2
    exact hne he2
  have hd1 : ([c1, c2] : List Call).Pairwise (fun c d => c.token ≠ d.token) := by
    refine List.Pairwise.cons ?_ (List.pairwise_singleton _ _)
    intro d hd
    have hd3 : d = c2 := by simpa using hd
    subst hd3
    exact htokne
  have hd2 : ([c2, c1] : List Call).Pairwise (fun c d => c.token ≠ d.token) := by
    refine List.Pairwise.cons ?_ (List.pairwise_singleton _ _)
    intro d hd
    have hd3 : d = c1 := by simpa using hd
    subst hd3
    exact fun he => htokne he.symm
  have hcr1 : ∀ c ∈ [c1, c2], c.isCreditOn u = true := by
    intro c hc
    rcases mem_pair_elim hc with rfl | rfl
    · exact h1
    · exact h2
  have hcr2 : ∀ c ∈ [c2, c1], c.isCreditOn u = true := by
    intro c hc
    rcases mem_pair_elim hc with rfl | rfl
    · exact h2
    · exact h1
  have hfr1 : ∀ c ∈ [c1, c2], ∀ t, c.token = some t →
      s.idempotency_map t = none := by
    intro c hc
    exact hfr c (mem_pair_elim hc)
  have hfr2 : ∀ c ∈ [c2, c1], ∀ t, c.token = some t →
      s.idempotency_map t = none := by
    intro c hc
    exact hfr c (mem_pair_elim hc).symm
  constructor
  · rw [run_credits_balance u [c1, c2] s hcr1 hfr1 hd1]
    simp
  · rw [run_credits_balance u [c2, c1] s hcr2 hfr2 hd2]
    simp [add_comm]

/-- C6 witness: two otherwise-identical reward calls differing only in their
token, applied in both orders on the initial state. -/
theorem cross_token_independence_witness :
    ((Call.game_reward "u" 50 "r" "t1").isCreditOn "u" = true
      ∧ (Call.game_reward "u" 50 "r" "t2").isCreditOn "u" = true
      ∧ (Call.game_reward "u" 50 "r" "t1").token = some "t1"
      ∧ (Call.game_reward "u" 50 "r" "t2").token = some "t2"
      ∧ "t1" ≠ "t2"
      ∧ initService.idempotency_map "t1" = none
      ∧ initService.idempotency_map "t2" = none)
    ∧ (balanceOf
          (run initService
            [Call.game_reward "u" 50 "r" "t1", Call.game_reward "u" 50 "r" "t2"]) "u"
        = balanceOf initService "u" +
            ((Call.game_reward "u" 50 "r" "t1").delta +
              (Call.game_reward "u" 50 "r" "t2").delta)
      ∧ balanceOf
          (run initService
            [Call.game_reward "u" 50 "r" "t2", Call.game_reward "u" 50 "r" "t1"]) "u"
        = balanceOf initService "u" +
            ((Call.game_reward "u" 50 "r" "t1").delta +
              (Call.game_reward "u" 50 "r" "t2").delta)) :=
  ⟨⟨rfl, rfl, rfl, rfl, by decide, rfl, rfl⟩,
   cross_token_independence initService "u" "t1" "t2"
     (Call.game_reward "u" 50 "r" "t1") (Call.game_reward "u" 50 "r" "t2")
     rfl rfl rfl rfl (by decide) rfl rfl⟩

/-! ### C8: zero-state default -/

/-- Running calls none of which is a credit on `u` never creates `u`'s
wallet entry. -/
theorem run_wallets_untouched (u : String) :
    ∀ (cs : List Call) (s : WalletService),
      (∀ c ∈ cs, c.isCreditOn u = false) →
      (run s cs).wallets u = s.wallets u
  | [], _, _ => rfl
  | c :: cs, s, h => by
    have hrun : run s (c :: cs) = run (step s c) cs := rfl
    rw [hrun,
      run_wallets_untouched u cs (step s c) (fun d hd => h d (by simp [hd]))]
    exact step_wallets_other s c u (h c (by simp))

/-- C8: for an account never referenced by any mutating call, `get_wallet`
returns the zero view (balance 0, empty operation list); the account is
still absent from the store afterwards, and the read changes nothing —
`get_wallet` is a total function, so absence is never an error. -/
theorem zero_state_default (cs : List Call) (u : String)
    (h : ∀ c ∈ cs, c.isCreditOn u = false) :
    get_wallet (run initService cs) u =
      { userId := u, balance := 0, recent_operations := [] }
    ∧ (run initService cs).wallets u = none
    ∧ step (run initService cs) (Call.get_wallet u) = run initService cs := by
  have hw : (run initService cs).wallets u = none := by
    rw [run_wallets_untouched u cs initService h]
    rfl
  exact ⟨by simp [get_wallet, hw], hw, rfl⟩

/-- C8 witness: after a `topup` for another account and a read of `"u"`,
account `"u"` still views as zero and is still absent. -/
theorem zero_state_default_witness :
    (∀ c ∈ [Call.topup "v" 5 "t", Call.get_wallet "u"], c.isCreditOn "u" = false)
    ∧ (get_wallet (run initService [Call.topup "v" 5 "t", Call.get_wallet "u"]) "u" =
        { userId := "u", balance := 0, recent_operations := [] }
      ∧ (run initService [Call.topup "v" 5 "t", Call.get_wallet "u"]).wallets "u"
          = none
      ∧ step (run initService [Call.topup "v" 5 "t", Call.get_wallet "u"])
          (Call.get_wallet "u")
        = run initService [Call.topup "v" 5 "t", Call.get_wallet "u"]) :=
  ⟨by decide,
   zero_state_default [Call.topup "v" 5 "t", Call.get_wallet "u"] "u" (by decide)⟩

/-! ### C5: balance invariant -/

/-- Every stored wallet's balance equals the sum of its operation amounts. -/
def GoodState (s : WalletService) : Prop :=
  ∀ u w, s.wallets u = some w →
    w.balance = (w.operations.map Operation.amount).sum

/-- Every stored operation has a non-negative amount. -/
def OpsNonneg (s : WalletService) : Prop :=
  ∀ u w, s.wallets u = some w → ∀ op ∈ w.operations, 0 ≤ op.amount

theorem goodState_init : GoodState initService := by
  intro u w h
  simp [initService] at h

theorem opsNonneg_init : OpsNonneg initService := by
  intro u w h
  simp [initService] at h

theorem goodState_getOrCreate (s : WalletService) (u : String)
    (h : GoodState s) :
    (getOrCreateWallet s u).balance =
      ((getOrCreateWallet s u).operations.map Operation.amount).sum := by
  unfold getOrCreateWallet
  cases hm : s.wallets u with
  | none => simp
  | some w => simpa using h u w hm

theorem opsNonneg_getOrCreate (s : WalletService) (u : String)
    (h : OpsNonneg s) :
    ∀ op ∈ (getOrCreateWallet s u).operations, 0 ≤ op.amount := by
  unfold getOrCreateWallet
  cases hm : s.wallets u with
  | none => simp
  | some w => simpa using h u w hm

/-- Every call preserves the balance-equals-sum invariant. -/
theorem goodState_step (s : WalletService) (c : Call) (h : GoodState s) :
    GoodState (step s c) := by
  cases c with
  | topup u2 a k =>
    cases hm : s.idempotency_map k with
    | some r =>
      simpa [step, topup, hm] using h
    | none =>
      intro u w hw
      simp only [step, topup, hm] at hw
      by_cases hu : u = u2
      · rw [if_pos hu] at hw
        injection hw with hw2
        subst hw2
        simp [hu, goodState_getOrCreate s u2 h]
      · rw [if_neg hu] at hw
        exact h u w hw
  | game_reward u2 a r k =>
    cases hm : s.idempotency_map k with
    | some rec2 =>
      simpa [step, game_reward, hm] using h
    | none =>
      intro u w hw
      simp only [step, game_reward, hm] at hw
      by_cases hu : u = u2
      · rw [if_pos hu] at hw
        injection hw with hw2
        subst hw2
        simp [hu, goodState_getOrCreate s u2 h]
      · rw [if_neg hu] at hw
        exact h u w hw
  | get_wallet u2 => exact h

/-- A call with a non-negative coin delta preserves non-negativity of all
stored operation amounts. -/
theorem opsNonneg_step (s : WalletService) (c : Call) (h : OpsNonneg s)
    (hd : 0 ≤ c.delta) : OpsNonneg (step s c) := by
  cases c with
  | topup u2 a k =>
    cases hm : s.idempotency_map k with
    | some r =>
      simpa [step, topup, hm] using h
    | none =>
      intro u w hw
      simp only [step, topup, hm] at hw
      by_cases hu : u = u2
      · rw [if_pos hu] at hw
        injection hw with hw2
        subst hw2
        intro op hop
        simp only [List.mem_append, List.mem_singleton] at hop
        rcases hop with hop | hop
        · exact opsNonneg_getOrCreate s u2 h op (by simpa [hu] using hop)
        · subst hop
          simpa [Call.delta] using hd
      · rw [if_neg hu] at hw
        exact h u w hw
  | game_reward u2 a r k =>
    cases hm : s.idempotency_map k with
    | some rec2 =>
      simpa [step, game_reward, hm] using h
    | none =>
      intro u w hw
      simp only [step, game_reward, hm] at hw
      by_cases hu : u = u2
      · rw [if_pos hu] at hw
        injection hw with hw2
        subst hw2
        intro op hop
        simp only [List.mem_append, List.mem_singleton] at hop
        rcases hop with hop | hop
        · exact opsNonneg_getOrCreate s u2 h op (by simpa [hu] using hop)
        · subst hop
          simpa [Call.delta] using hd
      · rw [if_neg hu] at hw
        exact h u w hw
  | get_wallet u2 => exact h

theorem goodState_run (cs : List Call) :
    ∀ s : WalletService, GoodState s → GoodState (run s cs) := by
  induction cs with
  | nil => exact fun s h => h
  | cons c cs ih =>
    intro s h
    exact ih (step s c) (goodState_step s c h)

theorem opsNonneg_run (cs : List Call) :
    ∀ s : WalletService, OpsNonneg s → (∀ c ∈ cs, 0 ≤ c.delta) →
      OpsNonneg (run s cs) := by
  induction cs with
  | nil => exact fun s h _ => h
  | cons c cs ih =>
    intro s h hd
    exact ih (step s c) (opsNonneg_step s c h (hd c (by simp)))
      (fun d hdm => hd d (by simp [hdm]))

theorem balanceOf_nonneg_of_inv (s : WalletService) (u : String)
    (hg : GoodState s) (hn : OpsNonneg s) : 0 ≤ balanceOf s u := by
  unfold balanceOf
  rw [goodState_getOrCreate s u hg]
  exact List.sum_nonneg (by
    intro x hx
    simp only [List.mem_map] at hx
    obtain ⟨op, hop, rfl⟩ := hx
    exact opsNonneg_getOrCreate s u hn op hop)

/-- C5 counterexample: the claimed non-negativity fails — `game_reward`
accepts the (type-correct) amount `-5` with a fresh token, reaching a state
whose balance is negative. -/
theorem negative_balance_counterexample :
    (run initService [Call.game_reward "u" (-5) "r" "t"]).wallets "u" =
      some { balance := -5,
             operations := [{ type := "reward", amount := -5,
                              reward_id := some "r", key := "t", time := 0 }] }
    ∧ balanceOf (run initService [Call.game_reward "u" (-5) "r" "t"]) "u" < 0 := by
  constructor
  · rfl
  · decide

/-- C5 (amended): in every reachable state every stored wallet's balance
equals the sum of the amounts of its operation history, and this invariant
is preserved by every call (`topup`, `game_reward`, `get_wallet`);
the balance is moreover non-negative for states reached by calls whose coin
deltas are all non-negative (the code itself accepts negative amounts, so
non-negativity does not hold unconditionally). -/
theorem balance_invariant (cs : List Call) (s : WalletService) (c : Call)
    (u : String) (hs : GoodState s)
    (hpos : ∀ d ∈ cs, 0 ≤ Call.delta d) :
    GoodState (run initService cs)
    ∧ GoodState (step s c)
    ∧ 0 ≤ balanceOf (run initService cs) u :=
  ⟨goodState_run cs initService goodState_init,
   goodState_step s c hs,
   balanceOf_nonneg_of_inv _ u (goodState_run cs initService goodState_init)
     (opsNonneg_run cs initService opsNonneg_init hpos)⟩

/-- C5 witness: the trace of a topup of 100 and a reward of 50. -/
theorem balance_invariant_witness :
    (GoodState initService
      ∧ (∀ d ∈ [Call.topup "u" 100 "a", Call.game_reward "u" 50 "r" "b"],
          0 ≤ Call.delta d))
    ∧ (GoodState
        (run initService [Call.topup "u" 100 "a", Call.game_reward "u" 50 "r" "b"])
      ∧ GoodState (step initService (Call.topup "u" 100 "a"))
      ∧ 0 ≤ balanceOf
          (run initService [Call.topup "u" 100 "a", Call.game_reward "u" 50 "r" "b"])
          "u") :=
  ⟨⟨goodState_init, by decide⟩,
   balance_invariant [Call.topup "u" 100 "a", Call.game_reward "u" 50 "r" "b"]
     initService (Call.topup "u" 100 "a") "u" goodState_init (by decide)⟩

/-! ### C7: recency-bounded view -/

theorem byTimeDesc_trans (a b c : Operation) (hab : byTimeDesc a b)
    (hbc : byTimeDesc b c) : byTimeDesc a c := by
  simp only [byTimeDesc, decide_eq_true_eq] at *
  exact le_trans hbc hab

theorem byTimeDesc_total (a b : Operation) : byTimeDesc a b || byTimeDesc b a := by
  simp only [byTimeDesc, Bool.or_eq_true, decide_eq_true_eq]
  exact Nat.le_total b.time a.time

/-- C7: for any stored wallet, `get_wallet` returns at most 5 operations,
ordered by recorded timestamp most-recent-first, and they are the
most-recently-timestamped ones: the remaining history completes them to a
permutation of the full history and every omitted operation has a timestamp
no later than every returned one. -/
theorem recency_bounded_view (s : WalletService) (u : String) (w : Wallet)
    (h : s.wallets u = some w) :
    (get_wallet s u).recent_operations.length ≤ 5
    ∧ (get_wallet s u).recent_operations.Pairwise (fun a b => b.time ≤ a.time)
    ∧ ∃ rest : List Operation,
        ((get_wallet s u).recent_operations ++ rest).Perm w.operations
        ∧ ∀ x ∈ rest, ∀ y ∈ (get_wallet s u).recent_operations,
            x.time ≤ y.time := by
  have hgw : (get_wallet s u).recent_operations =
      (w.operations.mergeSort byTimeDesc).take 5 := by
    simp [get_wallet, h]
  have hsort : (w.operations.mergeSort byTimeDesc).Pairwise
      (fun a b => byTimeDesc a b = true) :=
    List.sorted_mergeSort byTimeDesc_trans byTimeDesc_total w.operations
  have hsplit : (w.operations.mergeSort byTimeDesc).take 5 ++
      (w.operations.mergeSort byTimeDesc).drop 5 =
      w.operations.mergeSort byTimeDesc :=
    List.take_append_drop 5 _
  refine ⟨?_, ?_, ?_⟩
  · rw [hgw]
    exact List.length_take_le 5 _
  · rw [hgw]
    have hsub := List.Pairwise.sublist (List.take_sublist 5 _) hsort
    exact hsub.imp (by
      intro a b hab
      simpa [byTimeDesc] using hab)
  · refine ⟨(w.operations.mergeSort byTimeDesc).drop 5, ?_, ?_⟩
    · rw [hgw, hsplit]
      exact List.mergeSort_perm w.operations byTimeDesc
    · intro x hx y hy
      rw [hgw] at hy
      have hpa := (List.pairwise_append.mp (hsplit ▸ hsort)).2.2 y hy x hx
      simpa [byTimeDesc] using hpa

/-- C7 witness: a wallet holding one operation, read back through
`get_wallet`. -/
theorem recency_bounded_view_witness :
    ((topup initService "u" 5 "t").2.wallets "u" =
        some { balance := 5,
               operations := [{ type := "topup", amount := 5, reward_id := none,
                                key := "t", time := 0 }] })
    ∧ ((get_wallet (topup initService "u" 5 "t").2 "u").recent_operations.length ≤ 5
      ∧ (get_wallet (topup initService "u" 5 "t").2 "u").recent_operations.Pairwise
          (fun a b => b.time ≤ a.time)
      ∧ ∃ rest : List Operation,
          ((get_wallet (topup initService "u" 5 "t").2 "u").recent_operations ++ rest).Perm
            ({ balance := 5,
               operations := [{ type := "topup", amount := 5, reward_id := none,
                                key := "t", time := 0 }] } : Wallet).operations
          ∧ ∀ x ∈ rest,
              ∀ y ∈ (get_wallet (topup initService "u" 5 "t").2 "u").recent_operations,
                x.time ≤ y.time) :=
  ⟨rfl,
   recency_bounded_view (topup initService "u" 5 "t").2 "u"
     { balance := 5,
       operations := [{ type := "topup", amount := 5, reward_id := none,
                        key := "t", time := 0 }] }
     rfl⟩

end WalletSpec
